import Mathlib

/-!
Verification development for the onyxia front-end excerpt.

The embedded code comes from three source files:
* `src/lib/secondaryAdapters/vaultSecretsManagerClient.ts` — the secrets-manager
  HTTP adapter, the reactive vault-token derivation and the CLI translator;
* `src/app/components/pages/Catalog/SearchBar.tsx` — the `SearchBar` component
  and the launcher thunks (`getXOnyxiaContext`, `getInitialFormFields`,
  `getChartInfos`);
* `web/src/core/usecases/index.ts` — the usecases aggregation index.

External library functions (Node `path.join`, `JSON.stringify`, `yaml.stringify`,
the JS regular-expression engine, `parseUrl`, `btoa`, …) are modelled either
directly (for `path.join`, whose behaviour matters to the claims) or as explicit
function parameters of the embedded definitions.
-/

namespace PathMod

/-- Split a character list on `'/'`, keeping empty segments, as
`String.prototype.split("/")` does. -/
def splitSegs : List Char → List (List Char)
  | [] => [[]]
  | c :: rest =>
    let r := splitSegs rest
    if c = '/' then [] :: r
    else
      match r with
      | [] => [[c]]
      | seg :: segs => (c :: seg) :: segs

/-- Split a string on `'/'` (model of `s.split("/")` for a one-character
separator). -/
def splitSlash (s : String) : List String :=
  (splitSegs s.data).map (fun cs => ⟨cs⟩)

/-- A path segment that Node `path.normalize` leaves untouched: non-empty and
neither `"."` nor `".."`. -/
def isNormalSeg (s : String) : Bool :=
  !(s = "" || s = "." || s = "..")

/-- One step of Node's path normalization over the segment list: empty and `"."`
segments are dropped, `".."` pops the previous segment (or is kept when there is
nothing left to pop, the joined path being relative here). -/
def normStep (acc : List String) (seg : String) : List String :=
  if seg = "" || seg = "." then acc
  else if seg = ".." then
    match acc.getLast? with
    | none => [".."]
    | some l => if l = ".." then acc ++ [".."] else acc.dropLast
  else acc ++ [seg]

/-- Node path normalization on a segment list. -/
def normalizeSegs (segs : List String) : List String :=
  segs.foldl normStep []

/-- Join segments with `'/'` (model of `Array.prototype.join("/")`). -/
def joinSegs : List String → String
  | [] => ""
  | [s] => s
  | s :: rest => s ++ "/" ++ joinSegs rest

/-- Model of Node `path.join(...parts)` for the relative paths used by the
adapter: concatenate the parts with `'/'` and normalize.  Splitting each part
and flattening is equivalent to splitting the `'/'`-concatenation, since the
separator is a single character. -/
def pathJoin (parts : List String) : String :=
  joinSegs (normalizeSegs (parts.flatMap splitSlash))

theorem splitSegs_ne_nil (cs : List Char) : splitSegs cs ≠ [] := by
  induction cs with
  | nil => simp [splitSegs]
  | cons c rest ih =>
    simp only [splitSegs]
    split
    · simp
    · cases h : splitSegs rest with
      | nil => simp
      | cons seg segs => simp

theorem splitSlash_ne_nil (s : String) : splitSlash s ≠ [] := by
  unfold splitSlash
  intro h
  exact splitSegs_ne_nil s.data (by simpa using h)

theorem foldl_normStep_all_normal (segs : List String) :
    ∀ acc : List String, segs.all isNormalSeg →
      List.foldl normStep acc segs = acc ++ segs := by
  induction segs with
  | nil => intro acc _; simp
  | cons s rest ih =>
    intro acc hall
    simp only [List.all_cons, Bool.and_eq_true] at hall
    obtain ⟨hs, hrest⟩ := hall
    have hstep : normStep acc s = acc ++ [s] := by
      unfold normStep isNormalSeg at *
      simp only [Bool.not_eq_true', Bool.or_eq_false_iff, decide_eq_false_iff_not] at hs
      simp [hs.1.1, hs.1.2, hs.2]
    simp only [List.foldl_cons, hstep, ih (acc ++ [s]) hrest, List.append_assoc,
      List.singleton_append]

theorem normalizeSegs_all_normal (segs : List String)
    (h : segs.all isNormalSeg) : normalizeSegs segs = segs := by
  unfold normalizeSegs
  simpa using foldl_normStep_all_normal segs [] h

theorem pathJoin_of_flat (parts segs : List String)
    (hf : parts.flatMap splitSlash = segs)
    (h : segs.all isNormalSeg) : pathJoin parts = joinSegs segs := by
  unfold pathJoin
  rw [hf, normalizeSegs_all_normal segs h]

theorem joinSegs_cons_of_ne_nil (s : String) (rest : List String)
    (h : rest ≠ []) : joinSegs (s :: rest) = s ++ "/" ++ joinSegs rest := by
  cases rest with
  | nil => exact absurd rfl h
  | cons a l => rfl

end PathMod

namespace Vault

/-- The `version` constant of `vaultSecretsManagerClient.ts`. -/
def version : String := "v1"

/-- Model of `ctxPathJoin(...args) = pathJoin(version, engine, ...args)`. -/
def ctxPathJoin (engine : String) (args : List String) : String :=
  PathMod.pathJoin (version :: engine :: args)

/-- An HTTP request as issued by the adapter through its axios instance. -/
structure HttpRequest where
  method : String
  url : String
  queryParams : List (String × String)
  deriving DecidableEq, Repr

/-- The request issued by `secretsManagerClient.list`:
`GET ctxPathJoin("metadata", path)` with query params `{ list: "true" }`. -/
def listRequest (engine path : String) : HttpRequest :=
  { method := "GET"
    url := ctxPathJoin engine ["metadata", path]
    queryParams := [("list", "true")] }

/-- The pair `{ nodes, leafs }` returned by `secretsManagerClient.list`. -/
structure ListResult where
  nodes : List String
  leafs : List String
  deriving DecidableEq, Repr

/-- How `secretsManagerClient.list` post-processes the backend's keys:
`keys.reduce(...partition(key => key.endsWith("/")))`, i.e. keys ending in `'/'`
go to `nodes` (in order) and the others to `leafs` (in order). -/
def listResult (keys : List String) : ListResult :=
  let p := keys.partition (fun key => key.endsWith "/")
  { nodes := p.1, leafs := p.2 }

/-- The request issued by `secretsManagerClient.get`:
`GET ctxPathJoin("data", path)`. -/
def getRequest (engine path : String) : HttpRequest :=
  { method := "GET", url := ctxPathJoin engine ["data", path], queryParams := [] }

/-- The request issued by `secretsManagerClient.put`:
`PUT ctxPathJoin("data", path)` (its body wraps the secret as `{ data: secret }`). -/
def putRequest (engine path : String) : HttpRequest :=
  { method := "PUT", url := ctxPathJoin engine ["data", path], queryParams := [] }

/-- The request issued by `secretsManagerClient.delete`:
`DELETE ctxPathJoin("data", path)`. -/
def deleteRequest (engine path : String) : HttpRequest :=
  { method := "DELETE", url := ctxPathJoin engine ["data", path], queryParams := [] }

/-- The url of the token-exchange request of `fetchVaultToken`:
`POST /${version}/auth/jwt/login` with body `{ role, jwt: oidcAccessToken }`;
the `client_token` of the response is the vault token. -/
def loginRequestUrl : String := "/" ++ version ++ "/auth/jwt/login"

/-- State of the memoized `fetchVaultToken` (`memoizee` with `promise: true`):
the memo table plus the list of OIDC tokens actually exchanged against the
backend, in order. -/
structure TokenState where
  memo : List (String × String)
  calls : List String
  deriving DecidableEq, Repr

/-- One call of the memoized `fetchVaultToken`: a memoized OIDC token is
answered from the table without a new exchange, a fresh one is exchanged via
`login` (the `POST /v1/auth/jwt/login` round-trip) and recorded. -/
def fetchVaultToken (login : String → String) (st : TokenState) (tok : String) :
    String × TokenState :=
  match st.memo.find? (fun p => p.1 = tok) with
  | some p => (p.2, st)
  | none => (login tok, ⟨st.memo ++ [(tok, login tok)], st.calls ++ [tok]⟩)

/-- One step of the `Evt.asyncPipe` deriving `evtVaultToken` from
`evtOidcAccessToken.evtChange`: an `undefined` OIDC token maps to `undefined`,
a defined one to the (memoized) exchanged vault token. -/
def pipeOne (login : String → String) (st : TokenState) (oidc : Option String) :
    Option String × TokenState :=
  match oidc with
  | none => (none, st)
  | some tok =>
    let r := fetchVaultToken login st tok
    (some r.1, r.2)

/-- Process a whole sequence of OIDC access-token change events, yielding the
sequence of derived vault-token events and the final memo state. -/
def pipeAll (login : String → String) (st : TokenState) :
    List (Option String) → List (Option String) × TokenState
  | [] => ([], st)
  | e :: rest =>
    let r := pipeOne login st e
    let rr := pipeAll login r.2 rest
    (r.1 :: rr.1, rr.2)

/-- The headers set by the request interceptor of
`getAxiosInstanceAndEvtVaultToken`: the headers object is replaced by
`{ "X-Vault-Token": <awaited vault token> }`. -/
def interceptedHeaders (vaultToken : String) : List (String × String) :=
  [("X-Vault-Token", vaultToken)]

end Vault

namespace Vault

/-- JSON values, as the secret entries of the adapter may hold
(`Secret[key]` in the TS sources). -/
inductive Json where
  | null : Json
  | bool (b : Bool) : Json
  | num (n : Int) : Json
  | str (s : String) : Json
  | arr (elems : List Json) : Json
  | obj (fields : List (String × Json)) : Json

/-- JS `typeof value === "string"`. -/
def Json.isString : Json → Bool
  | .str _ => true
  | _ => false

/-- JS `typeof value === "number" || typeof value === "boolean"`. -/
def Json.isNumOrBool : Json → Bool
  | .num _ => true
  | .bool _ => true
  | _ => false

/-- Template-literal rendering of a number or boolean
(the interpolation of a JS template string). -/
def Json.plainRender : Json → String
  | .num n => toString n
  | .bool b => toString b
  | _ => ""

/-- The string payload of a `Json.str`. -/
def Json.strVal : Json → String
  | .str s => s
  | _ => ""

/-- Model of `value.replace(/"/g, '\\"')`: escape every double quote with a
backslash. -/
def escapeQuotes (s : String) : String :=
  ⟨s.data.flatMap (fun c => if c = '"' then ['\\', '"'] else [c])⟩

/-- Join strings with a separator (model of `Array.prototype.join(sep)`). -/
def joinWith (sep : String) : List String → String
  | [] => ""
  | [s] => s
  | s :: rest => s ++ sep ++ joinWith sep rest

/-- Rendering of one secret value inside a `vault kv put` command line, from
`getVaultClientTranslator`: strings are wrapped in double quotes with inner
double quotes backslash-escaped; numbers and booleans are interpolated as-is;
any other value becomes a heredoc around `JSON.stringify(value, null, 2)`,
the latter passed in as `jsonStringify`. -/
def renderSecretValue (jsonStringify : Json → String) (v : Json) : String :=
  if v.isString then "\"" ++ escapeQuotes v.strVal ++ "\""
  else if v.isNumOrBool then v.plainRender
  else joinWith "\n" ["-<<EOF", "heredoc > " ++ jsonStringify v, "heredoc> EOF"]

/-- `buildCmd` of the `list` translator:
`vault kv list ${pathJoin(engine, path)}`. -/
def buildListCmd (engine path : String) : String :=
  "vault kv list " ++ PathMod.pathJoin [engine, path]

/-- `buildCmd` of the `get` translator:
`vault kv get ${pathJoin(engine, path)}`. -/
def buildGetCmd (engine path : String) : String :=
  "vault kv get " ++ PathMod.pathJoin [engine, path]

/-- `buildCmd` of the `put` translator: the `vault kv put` line followed by one
`key=value` rendering per secret entry, all joined with `" \\\n"`. -/
def buildPutCmd (jsonStringify : Json → String) (engine path : String)
    (secret : List (String × Json)) : String :=
  joinWith " \\\n"
    (("vault kv put " ++ PathMod.pathJoin [engine, path]) ::
      secret.map (fun kv => kv.1 ++ "=" ++ renderSecretValue jsonStringify kv.2))

/-- `buildCmd` of the `delete` translator:
`vault kv delete ${pathJoin(engine, path)}`. -/
def buildDeleteCmd (engine path : String) : String :=
  "vault kv delete " ++ PathMod.pathJoin [engine, path]

/-- Stated from the spec, for the refinement claim: a CLI command is
`vault kv <op> <engine/path>`, targeting the engine-relative path that the HTTP
adapter addresses under `v1/<engine>/(metadata|data)/<path>`. -/
def specCliCmd (op engine path : String) : String :=
  "vault kv " ++ op ++ " " ++ engine ++ "/" ++ path

/-- Stated from the spec, for the refinement claim: a `put` entry is rendered as
`key=value`, strings quoted with inner double quotes backslash-escaped, numbers
and booleans unquoted, other values as a JSON heredoc. -/
def specRenderEntry (jsonStringify : Json → String) (key : String) (v : Json) :
    String :=
  key ++ "=" ++
    match v with
    | .str s => "\"" ++ escapeQuotes s ++ "\""
    | .num n => toString n
    | .bool b => toString b
    | other => "-<<EOF\n" ++ "heredoc > " ++ jsonStringify other ++ "\n" ++ "heredoc> EOF"

end Vault

namespace Launcher

/-- A form-field value (`FormFieldValue["value"]` in the TS sources): a string,
boolean, number, or a yaml-wrapped object `{ type: "yaml", yamlStr }`. -/
inductive Value where
  | str (s : String) : Value
  | bool (b : Bool) : Value
  | num (n : Int) : Value
  | yaml (yamlStr : String) : Value
  deriving DecidableEq, Repr

/-- JS template-literal interpolation of a value, as in ``new RegExp(pattern).test(`${value}`)``:
strings interpolate as themselves, booleans as `true`/`false`, numbers in
decimal, and a yaml-wrapper object as `[object Object]`. -/
def Value.jsRender : Value → String
  | .str s => s
  | .bool b => toString b
  | .num n => toString n
  | .yaml _ => "[object Object]"

/-- A `FormFieldValue`: a path into the values document plus a value. -/
structure FormFieldValue where
  path : List String
  value : Value
  deriving DecidableEq, Repr

/-- The `x-onyxia` annotation block of a form-field description. -/
structure XOnyxia where
  readonly : Option Bool
  hidden : Option Bool
  deriving DecidableEq, Repr

/-- The `x-security` annotation block of a form-field description. -/
structure XSecurity where
  pattern : Option String
  deriving DecidableEq, Repr

/-- The `hidden` property of a form-field description: either a boolean or an
object `{ path, value }` referencing another field. -/
inductive HiddenProp where
  | bool (b : Bool) : HiddenProp
  | ref (path : String) (value : Value) : HiddenProp
  deriving DecidableEq, Repr

/-- The `isHidden` entry computed per field: a static boolean or a reference to
another field's value. -/
inductive IsHidden where
  | static (b : Bool) : IsHidden
  | ref (path : List String) (value : Value) : IsHidden
  deriving DecidableEq, Repr

/-- One entry of `infosAboutWhenFieldsShouldBeHidden`. -/
structure HiddenInfo where
  path : List String
  isHidden : IsHidden
  deriving DecidableEq, Repr

/-- The scalar properties of a JSON-Schema node
(`JSONSchemaFormFieldDescription` in the TS sources); absent JSON properties are
`none`. -/
structure FieldDesc where
  type : Option String
  title : Option String
  description : Option String
  xOnyxia : Option XOnyxia
  render : Option String
  sliderExtremity : Option String
  sliderExtremitySemantic : Option String
  sliderRangeId : Option String
  sliderMin : Option Int
  sliderMax : Option Int
  sliderUnit : Option String
  sliderStep : Option Int
  default : Option Value
  minimum : Option Int
  pattern : Option String
  enum : Option (List Value)
  listEnum : Option (List Value)
  hidden : Option HiddenProp
  xSecurity : Option XSecurity
  deriving DecidableEq, Repr

mutual

/-- A JSON-Schema node: its scalar properties plus, optionally, a `properties`
object (an ordered key/child list). -/
inductive SchemaNode where
  | mk (desc : FieldDesc) (properties : Option SchemaProps) : SchemaNode

/-- The ordered entries of a `properties` object. -/
inductive SchemaProps where
  | nil : SchemaProps
  | cons (key : String) (child : SchemaNode) (rest : SchemaProps) : SchemaProps

end

/-- The scalar properties of a node. -/
def SchemaNode.desc : SchemaNode → FieldDesc
  | .mk d _ => d

/-- The seven UI field kinds (with the slider and yaml variants spelled out). -/
inductive FieldKind where
  | boolean : FieldKind
  | integer : FieldKind
  | enumKind : FieldKind
  | sliderSimple : FieldKind
  | sliderRangeUp : FieldKind
  | sliderRangeDown : FieldKind
  | text : FieldKind
  | array : FieldKind
  | objectAsYaml : FieldKind
  deriving DecidableEq, Repr

/-- The `common` part of every form-field descriptor pushed by
`getInitialFormFields`. -/
structure FieldCommon where
  path : List String
  title : String
  description : Option String
  isReadonly : Bool
  deriving DecidableEq, Repr

/-- A form-field descriptor (`FormField` in the TS sources), one constructor per
UI field kind produced by `getInitialFormFields`. -/
inductive FormField where
  | sliderRangeDown (c : FieldCommon) (sliderExtremitySemantic : Option String)
      (sliderRangeId : Option String) (sliderMin : Option Int)
      (sliderUnit : Option String) (sliderStep : Option Int)
      (value : Option Value) : FormField
  | sliderRangeUp (c : FieldCommon) (sliderExtremitySemantic : Option String)
      (sliderRangeId : Option String) (sliderMax : Option Int)
      (value : Option Value) : FormField
  | sliderSimple (c : FieldCommon) (sliderMin : Option Int)
      (sliderUnit : Option String) (sliderStep : Option Int)
      (sliderMax : Option Int) (value : Option Value) : FormField
  | bool (c : FieldCommon) (value : Option Value) : FormField
  | arr (c : FieldCommon) (yamlStr : String) (defaultYamlStr : String) : FormField
  | objectAsYaml (c : FieldCommon) (yamlStr : String) (defaultYamlStr : String) : FormField
  | integer (c : FieldCommon) (value : Option Value) (minimum : Option Int) : FormField
  | enumField (c : FieldCommon) (value : Option Value)
      (choices : Option (List Value)) : FormField
  | text (c : FieldCommon) (pattern : Option String) (value : Option Value)
      (defaultValue : Option Value) (isPassword : Bool)
      (doRenderAsTextArea : Bool) : FormField
  deriving DecidableEq, Repr

/-- The kind of a form-field descriptor. -/
def FormField.kind : FormField → FieldKind
  | .sliderRangeDown .. => .sliderRangeDown
  | .sliderRangeUp .. => .sliderRangeUp
  | .sliderSimple .. => .sliderSimple
  | .bool .. => .boolean
  | .arr .. => .array
  | .objectAsYaml .. => .objectAsYaml
  | .integer .. => .integer
  | .enumField .. => .enumKind
  | .text .. => .text

/-- The decision table of the classification: the kind of the field pushed for a
leaf, as a function of the leaf's declared `type` and its renderer hints
(`render`, `sliderExtremity`, and the presence of `enum`), in the branch order
of the source. -/
def kindDecision (type render sliderExtremity : Option String) (hasEnum : Bool) :
    FieldKind :=
  if render = some "slider" then
    match sliderExtremity with
    | some "down" => .sliderRangeDown
    | some "up" => .sliderRangeUp
    | _ => .sliderSimple
  else if type = some "boolean" then .boolean
  else if type = some "object" then .objectAsYaml
  else if type = some "array" then .array
  else if type = some "integer" ∨ type = some "number" then .integer
  else if render = some "list" then .enumKind
  else if hasEnum then .enumKind
  else .text

end Launcher

namespace Launcher

/-- The ambient inputs of the `getInitialFormFields` walk: the model of
`yaml.stringify` applied to a default value, the model of the JS regular
expression engine (`new RegExp(pattern).test(s)`), and
`formFieldsValueDifferentFromDefault`. -/
structure WalkCtx where
  yamlStringify : Option Value → String
  regexTest : String → String → Bool
  diff : List FormFieldValue

/-- The `security_warning` block of `getInitialFormFields`, reached in the final
(text) branch: yields the `{ path, value }` pair to append when the leaf
declares an `x-security` pattern, a value for the leaf's path exists in
`formFieldsValueDifferentFromDefault`, and the interpolated value does not pass
the pattern's regular-expression test. -/
def securityCandidate (regexTest : String → String → Bool)
    (diff : List FormFieldValue) (path : List String) (d : FieldDesc) :
    Option FormFieldValue :=
  match d.xSecurity.bind XSecurity.pattern with
  | none => none
  | some pat =>
    match diff.find? (fun f => f.path = path) with
    | none => none
    | some f =>
      if regexTest pat (Value.jsRender f.value) then none
      else some { path := path, value := f.value }

/-- The leaf-classification IIFE of `getInitialFormFields`, in the branch order
of the source, together with the candidate sensitive-configuration entry of its
`security_warning` block (only the final text branch yields one).  The `title`
falls back on the last path component (`newCurrentPath.slice(-1)[0]`). -/
def leafResult (ctx : WalkCtx) (newPath : List String) (d : FieldDesc) :
    FormField × Option FormFieldValue :=
  let common : FieldCommon :=
    { path := newPath
      title := d.title.getD (newPath.getLastD "")
      description := d.description
      isReadonly := (d.xOnyxia.bind XOnyxia.readonly).getD false }
  if d.render = some "slider" then
    let value := d.default
    match d.sliderExtremity with
    | some "down" =>
      (.sliderRangeDown common d.sliderExtremitySemantic d.sliderRangeId
        d.sliderMin d.sliderUnit d.sliderStep value, none)
    | some "up" =>
      (.sliderRangeUp common d.sliderExtremitySemantic d.sliderRangeId
        d.sliderMax value, none)
    | _ =>
      (.sliderSimple common d.sliderMin d.sliderUnit d.sliderStep d.sliderMax
        value, none)
  else if d.type = some "boolean" then (.bool common d.default, none)
  else if d.type = some "object" ∨ d.type = some "array" then
    let yamlStr := ctx.yamlStringify d.default
    if d.type = some "array" then (.arr common yamlStr yamlStr, none)
    else (.objectAsYaml common yamlStr yamlStr, none)
  else if d.type = some "integer" ∨ d.type = some "number" then
    (.integer common d.default d.minimum, none)
  else if d.render = some "list" then (.enumField common d.default d.listEnum, none)
  else if d.enum.isSome then (.enumField common d.default d.enum, none)
  else
    (.text common d.pattern d.default d.default (d.render = some "password")
        (d.render = some "textArea"),
      securityCandidate ctx.regexTest ctx.diff newPath d)

/-- The per-leaf `isHidden` computation of `getInitialFormFields`: a declared
boolean `hidden` is used as-is, an object `hidden` becomes a reference with its
`path` split on `'/'`, and when `hidden` is absent the `x-onyxia` `hidden`
value is used when present and `false` otherwise. -/
def hiddenOf (d : FieldDesc) : IsHidden :=
  match d.hidden with
  | none =>
    match d.xOnyxia.bind XOnyxia.hidden with
    | some h => .static h
    | none => .static false
  | some (.bool b) => .static b
  | some (.ref p v) => .ref (PathMod.splitSlash p) v

/-- The three accumulators of the walk: `formFields`,
`infosAboutWhenFieldsShouldBeHidden` and `sensitiveConfigurations` (the last
one absent when the restorable config is not saved). -/
structure Acc where
  formFields : List FormField
  infos : List HiddenInfo
  sensitiveConfigurations : Option (List FormFieldValue)

/-- Processing of one leaf: push its form field, push its hidden-info entry,
and append the sensitive-configuration candidate when one is being collected. -/
def pushLeaf (ctx : WalkCtx) (acc : Acc) (newPath : List String)
    (d : FieldDesc) : Acc :=
  let r := leafResult ctx newPath d
  { formFields := acc.formFields ++ [r.1]
    infos := acc.infos ++ [{ path := newPath, isHidden := hiddenOf d }]
    sensitiveConfigurations :=
      acc.sensitiveConfigurations.map (fun l => l ++ r.2.toList) }

mutual

/-- The body of the recursive `callee` over one property entry: a child that is
an object with a `properties` key is recursed into, any other child is a leaf. -/
def walkEntry (ctx : WalkCtx) (acc : Acc) (newPath : List String) :
    SchemaNode → Acc
  | .mk d none => pushLeaf ctx acc newPath d
  | .mk d (some props) =>
    if d.type = some "object" then walkProps ctx acc newPath props
    else pushLeaf ctx acc newPath d

/-- The recursive `callee` of `getInitialFormFields` over the entries of a
`properties` object, in order. -/
def walkProps (ctx : WalkCtx) (acc : Acc) (currentPath : List String) :
    SchemaProps → Acc
  | .nil => acc
  | .cons key child rest =>
    walkProps ctx (walkEntry ctx acc (currentPath ++ [key]) child) currentPath rest

end

/-- Model of `getInitialFormFields`: `isSaved` is the result of the
`getIsRestorableConfigSaved` dispatch (when false, no sensitive configurations
are collected), and `rootProps` is the (mandatory) `properties` object of the
values schema the walk starts from, with `currentPath: []`. -/
def getInitialFormFields (ctx : WalkCtx) (isSaved : Bool)
    (rootProps : SchemaProps) : Acc :=
  walkProps ctx
    { formFields := []
      infos := []
      sensitiveConfigurations := if isSaved then some [] else none }
    [] rootProps

mutual

/-- Specification-side list of the leaves below one property entry, with their
paths, in traversal order. -/
def leavesEntry (newPath : List String) : SchemaNode → List (List String × FieldDesc)
  | .mk d none => [(newPath, d)]
  | .mk d (some props) =>
    if d.type = some "object" then leavesProps newPath props
    else [(newPath, d)]

/-- Specification-side list of the leaves below a `properties` object, with
their paths, in traversal order. -/
def leavesProps (currentPath : List String) : SchemaProps → List (List String × FieldDesc)
  | .nil => []
  | .cons key child rest =>
    leavesEntry (currentPath ++ [key]) child ++ leavesProps currentPath rest

end

end Launcher

namespace Launcher

theorem pushLeaf_eq (ctx : WalkCtx) (acc : Acc) (newPath : List String)
    (d : FieldDesc) :
    pushLeaf ctx acc newPath d =
      { formFields := acc.formFields ++ [(leafResult ctx newPath d).1]
        infos := acc.infos ++ [{ path := newPath, isHidden := hiddenOf d }]
        sensitiveConfigurations := acc.sensitiveConfigurations.map (fun l =>
          l ++ ((leafResult ctx newPath d).2).toList) } := rfl

mutual

theorem walkEntry_eq (ctx : WalkCtx) (acc : Acc) (newPath : List String)
    (node : SchemaNode) :
    walkEntry ctx acc newPath node =
      { formFields := acc.formFields ++
          (leavesEntry newPath node).map (fun pd => (leafResult ctx pd.1 pd.2).1)
        infos := acc.infos ++
          (leavesEntry newPath node).map
            (fun pd => { path := pd.1, isHidden := hiddenOf pd.2 })
        sensitiveConfigurations := acc.sensitiveConfigurations.map (fun l =>
          l ++ (leavesEntry newPath node).filterMap
            (fun pd => (leafResult ctx pd.1 pd.2).2)) } := by
  cases node with
  | mk d props =>
    cases props with
    | none =>
      rw [walkEntry, pushLeaf_eq]
      cases hr : (leafResult ctx newPath d).2 <;>
        simp [leavesEntry, hr]
    | some props =>
      by_cases h : d.type = some "object"
      · rw [walkEntry, if_pos h, walkProps_eq]
        simp [leavesEntry, h]
      · rw [walkEntry, if_neg h, pushLeaf_eq]
        cases hr : (leafResult ctx newPath d).2 <;>
          simp [leavesEntry, h, hr]

theorem walkProps_eq (ctx : WalkCtx) (acc : Acc) (currentPath : List String)
    (props : SchemaProps) :
    walkProps ctx acc currentPath props =
      { formFields := acc.formFields ++
          (leavesProps currentPath props).map (fun pd => (leafResult ctx pd.1 pd.2).1)
        infos := acc.infos ++
          (leavesProps currentPath props).map
            (fun pd => { path := pd.1, isHidden := hiddenOf pd.2 })
        sensitiveConfigurations := acc.sensitiveConfigurations.map (fun l =>
          l ++ (leavesProps currentPath props).filterMap
            (fun pd => (leafResult ctx pd.1 pd.2).2)) } := by
  cases props with
  | nil =>
    obtain ⟨ff, inf, sens⟩ := acc
    cases sens <;> simp [walkProps, leavesProps]
  | cons key child rest =>
    rw [walkProps, walkProps_eq, walkEntry_eq]
    simp [leavesProps, Option.map_map, Function.comp]
    cases hsens : acc.sensitiveConfigurations <;> simp [hsens]

end

end Launcher

namespace Launcher

theorem leafResult_kind (ctx : WalkCtx) (p : List String) (d : FieldDesc) :
    ((leafResult ctx p d).1).kind =
      kindDecision d.type d.render d.sliderExtremity d.enum.isSome := by
  unfold leafResult kindDecision
  by_cases h1 : d.render = some "slider"
  · simp only [h1, if_pos]
    rcases d.sliderExtremity with _ | s
    · simp [FormField.kind]
    · by_cases hs1 : s = "down"
      · subst hs1; simp [FormField.kind]
      · by_cases hs2 : s = "up"
        · subst hs2; simp [FormField.kind]
        · split <;> simp [FormField.kind]
  · split_ifs <;> simp_all [FormField.kind]

theorem leafResult_sens (ctx : WalkCtx) (p : List String) (d : FieldDesc) :
    (leafResult ctx p d).2 =
      if kindDecision d.type d.render d.sliderExtremity d.enum.isSome = .text
      then securityCandidate ctx.regexTest ctx.diff p d
      else none := by
  unfold leafResult kindDecision
  by_cases h1 : d.render = some "slider"
  · simp only [h1, if_pos]
    rcases d.sliderExtremity with _ | s
    · simp
    · split <;> simp
  · split_ifs <;> simp_all

end Launcher

namespace Launcher

/-- C1: for every values schema, the recursive walk of `getInitialFormFields`
pushes exactly one form-field descriptor per leaf (every property that is not an
object with a `properties` key), in schema traversal order — the form-field
list is exactly the leaf-classification mapped over the leaf list — and each
leaf is classified into exactly one of the UI field kinds, determined by its
declared `type` and its renderer hints (`render`, `sliderExtremity`, presence
of `enum`). -/
theorem claim_C1 (ctx : WalkCtx) (isSaved : Bool) (rootProps : SchemaProps) :
    (getInitialFormFields ctx isSaved rootProps).formFields =
      (leavesProps [] rootProps).map (fun pd => (leafResult ctx pd.1 pd.2).1)
    ∧ ∀ pd ∈ leavesProps [] rootProps,
        ((leafResult ctx pd.1 pd.2).1).kind =
          kindDecision pd.2.type pd.2.render pd.2.sliderExtremity pd.2.enum.isSome := by
  constructor
  · simp [getInitialFormFields, walkProps_eq]
  · intro pd _
    exact leafResult_kind ctx pd.1 pd.2

/-- Ambient walk inputs used by concrete witnesses: a trivial yaml serializer, a
regular-expression engine under which every test fails (as JS does for the
patterns and strings chosen below), and one user-supplied value at `["token"]`. -/
def ctxW : WalkCtx :=
  { yamlStringify := fun _ => ""
    regexTest := fun _ _ => false
    diff := [{ path := ["token"], value := .str "xyz" }] }

/-- An object node description (`type: "object"`). -/
def descObjW : FieldDesc :=
  ⟨some "object", none, none, none, none, none, none, none, none, none, none,
    none, none, none, none, none, none, none, none⟩

/-- A boolean leaf description. -/
def descBoolW : FieldDesc :=
  ⟨some "boolean", none, none, none, none, none, none, none, none, none, none,
    none, some (.bool true), none, none, none, none, none, none⟩

/-- A password-rendered string leaf description. -/
def descPwdW : FieldDesc :=
  ⟨some "string", none, none, none, some "password", none, none, none, none,
    none, none, none, some (.str "s3cret"), none, none, none, none, none, none⟩

/-- A string leaf carrying an `x-security` pattern. -/
def descSecTextW : FieldDesc :=
  ⟨some "string", none, none, none, none, none, none, none, none, none, none,
    none, some (.str "dflt"), none, none, none, none, none, some ⟨some "^a"⟩⟩

/-- An integer leaf carrying an `x-security` pattern. -/
def descSecIntW : FieldDesc :=
  ⟨some "integer", none, none, none, none, none, none, none, none, none, none,
    none, some (.num 3), none, none, none, none, none, some ⟨some "^a"⟩⟩

/-- A leaf whose `hidden` property references another field. -/
def descHidW : FieldDesc :=
  ⟨some "string", none, none, none, none, none, none, none, none, none, none,
    none, none, none, none, none, none, some (.ref "a/b" (.bool true)), some ⟨some "^a"⟩⟩

/-- A small values schema: an object with a nested boolean leaf, plus a
password leaf. -/
def rootW : SchemaProps :=
  .cons "resources" (.mk descObjW (some (.cons "enabled" (.mk descBoolW none) .nil)))
    (.cons "password" (.mk descPwdW none) .nil)

theorem claim_C1_witness :
    ((getInitialFormFields ctxW true rootW).formFields =
        (leavesProps [] rootW).map (fun pd => (leafResult ctxW pd.1 pd.2).1))
      ∧ ((leafResult ctxW ["password"] descPwdW).1).kind =
          kindDecision descPwdW.type descPwdW.render descPwdW.sliderExtremity
            descPwdW.enum.isSome :=
  ⟨(claim_C1 ctxW true rootW).1,
    (claim_C1 ctxW true rootW).2 (["password"], descPwdW) (by decide)⟩

/-- C2: for every leaf of the values schema, `getInitialFormFields` computes
exactly one visibility entry (the hidden-info list is the per-leaf `isHidden`
computation mapped over the leaf list), and the per-leaf `isHidden` is: the
declared boolean `hidden` when present; `{ path: hidden.path split on "/",
value: hidden.value }` when `hidden` is an object; and, when `hidden` is
absent, the `x-onyxia` `hidden` value when present and `false` otherwise. -/
theorem claim_C2 (ctx : WalkCtx) (isSaved : Bool) (rootProps : SchemaProps) :
    (getInitialFormFields ctx isSaved rootProps).infos =
      (leavesProps [] rootProps).map
        (fun pd => { path := pd.1, isHidden := hiddenOf pd.2 })
    ∧ ∀ d : FieldDesc,
        (∀ b, d.hidden = some (.bool b) → hiddenOf d = .static b)
        ∧ (∀ p v, d.hidden = some (.ref p v) →
            hiddenOf d = .ref (PathMod.splitSlash p) v)
        ∧ (d.hidden = none →
            hiddenOf d = .static ((d.xOnyxia.bind XOnyxia.hidden).getD false)) := by
  constructor
  · simp [getInitialFormFields, walkProps_eq]
  · intro d
    refine ⟨?_, ?_, ?_⟩
    · intro b hb; simp [hiddenOf, hb]
    · intro p v hpv; simp [hiddenOf, hpv]
    · intro hnone
      cases hx : d.xOnyxia.bind XOnyxia.hidden <;> simp [hiddenOf, hnone, hx]

theorem claim_C2_witness :
    ((getInitialFormFields ctxW true rootW).infos =
        (leavesProps [] rootW).map
          (fun pd => { path := pd.1, isHidden := hiddenOf pd.2 }))
      ∧ hiddenOf descHidW = .ref ["a", "b"] (.bool true) :=
  ⟨(claim_C2 ctxW true rootW).1, by
    have h := ((claim_C2 ctxW true rootW).2 descHidW).2.1 "a/b" (.bool true) (by decide)
    rw [h]; decide⟩

end Launcher

namespace Launcher

/-- A values schema holding a single string leaf with an `x-security` pattern. -/
def rootSecTextW : SchemaProps :=
  .cons "token" (.mk descSecTextW none) .nil

/-- A values schema holding a single integer leaf with an `x-security` pattern. -/
def rootSecIntW : SchemaProps :=
  .cons "token" (.mk descSecIntW none) .nil

/-- C3 refuted: two concrete runs where the leaf declares an `x-security`
pattern, a value for the leaf's path exists in
`formFieldsValueDifferentFromDefault`, and the interpolated value fails the
pattern's test — the claim's three conditions — yet no `{ path, value }` pair is
appended: first, when the restorable config is not saved,
`sensitiveConfigurations` stays `undefined`; second, even with it saved, an
integer-typed leaf returns from an earlier classification branch and never
reaches the `security_warning` block. -/
theorem claim_C3_counterexample :
    (descSecTextW.xSecurity.bind XSecurity.pattern = some "^a"
      ∧ ctxW.diff.find? (fun f => f.path = ["token"]) =
          some { path := ["token"], value := .str "xyz" }
      ∧ ctxW.regexTest "^a" (Value.jsRender (.str "xyz")) = false
      ∧ (getInitialFormFields ctxW false rootSecTextW).sensitiveConfigurations = none)
    ∧ (descSecIntW.xSecurity.bind XSecurity.pattern = some "^a"
      ∧ ctxW.regexTest "^a" (Value.jsRender (.num 3)) = false
      ∧ (getInitialFormFields ctxW true rootSecIntW).sensitiveConfigurations =
          some []) := by
  decide

/-- C3 (amended): a `{ path, value }` pair is appended to
`sensitiveConfigurations` exactly when the restorable config is saved (otherwise
`sensitiveConfigurations` is `undefined`), the leaf falls through to the
text/password/textarea classification, the leaf declares an `x-security`
pattern, a value for that path exists in
`formFieldsValueDifferentFromDefault`, and the interpolated value does not pass
the pattern's regular-expression test. -/
theorem claim_C3_amended (ctx : WalkCtx) (isSaved : Bool) (rootProps : SchemaProps) :
    (getInitialFormFields ctx isSaved rootProps).sensitiveConfigurations =
      (if isSaved then
        some ((leavesProps [] rootProps).filterMap
          (fun pd => (leafResult ctx pd.1 pd.2).2))
      else none)
    ∧ (∀ p d, (leafResult ctx p d).2 =
        (if kindDecision d.type d.render d.sliderExtremity d.enum.isSome = .text
         then securityCandidate ctx.regexTest ctx.diff p d
         else none))
    ∧ (∀ p d entry, securityCandidate ctx.regexTest ctx.diff p d = some entry ↔
        ∃ pat f, d.xSecurity.bind XSecurity.pattern = some pat
          ∧ ctx.diff.find? (fun f => f.path = p) = some f
          ∧ ctx.regexTest pat (Value.jsRender f.value) = false
          ∧ entry = { path := p, value := f.value }) := by
  refine ⟨?_, ?_, ?_⟩
  · cases isSaved <;> simp [getInitialFormFields, walkProps_eq]
  · intro p d
    exact leafResult_sens ctx p d
  · intro p d entry
    unfold securityCandidate
    cases hpat : d.xSecurity.bind XSecurity.pattern with
    | none => simp [hpat]
    | some pat =>
      cases hf : ctx.diff.find? (fun f => f.path = p) with
      | none => simp
      | some f =>
        by_cases hr : ctx.regexTest pat (Value.jsRender f.value)
        · simp [hr]
        · simp only [if_neg hr, Option.some.injEq]
          constructor
          · intro h
            exact ⟨pat, f, rfl, rfl, by simpa using hr, h.symm⟩
          · rintro ⟨pat2, f2, hp2, hf2, hr2, he⟩
            subst hf2
            simp [he]
  
theorem claim_C3_amended_witness :
    ((getInitialFormFields ctxW true rootSecTextW).sensitiveConfigurations =
        some ((leavesProps [] rootSecTextW).filterMap
          (fun pd => (leafResult ctxW pd.1 pd.2).2)))
      ∧ (securityCandidate ctxW.regexTest ctxW.diff ["token"] descSecTextW =
          some { path := ["token"], value := .str "xyz" } ↔
        ∃ pat f, descSecTextW.xSecurity.bind XSecurity.pattern = some pat
          ∧ ctxW.diff.find? (fun f => f.path = ["token"]) = some f
          ∧ ctxW.regexTest pat (Value.jsRender f.value) = false
          ∧ ({ path := ["token"], value := .str "xyz" } : FormFieldValue) =
              { path := ["token"], value := f.value }) :=
  ⟨(claim_C3_amended ctxW true rootSecTextW).1,
    (claim_C3_amended ctxW true rootSecTextW).2.2 ["token"] descSecTextW
      { path := ["token"], value := .str "xyz" }⟩

end Launcher

namespace Vault

theorem ctxPathJoin_metadata (engine path : String) (ps : List String)
    (hE : PathMod.splitSlash engine = [engine])
    (hEn : PathMod.isNormalSeg engine)
    (hP : PathMod.splitSlash path = ps)
    (hPs : ps.all PathMod.isNormalSeg)
    (hPj : PathMod.joinSegs ps = path) (mid : String)
    (hM : PathMod.splitSlash mid = [mid])
    (hMn : PathMod.isNormalSeg mid) :
    ctxPathJoin engine [mid, path] = "v1/" ++ engine ++ "/" ++ mid ++ "/" ++ path := by
  have hv1s : PathMod.splitSlash "v1" = ["v1"] := by decide
  have hv1n : PathMod.isNormalSeg "v1" = true := by decide
  have hps_ne : ps ≠ [] := hP ▸ PathMod.splitSlash_ne_nil path
  have hf : ([version, engine, mid, path]).flatMap PathMod.splitSlash =
      "v1" :: engine :: mid :: ps := by
    simp [version, List.flatMap_cons, List.flatMap_nil, hv1s, hE, hM, hP]
  have hall : ("v1" :: engine :: mid :: ps).all PathMod.isNormalSeg := by
    simp [List.all_cons, hv1n, hEn, hMn, hPs]
  unfold ctxPathJoin
  rw [PathMod.pathJoin_of_flat _ _ hf hall,
    PathMod.joinSegs_cons_of_ne_nil _ _ (by simp),
    PathMod.joinSegs_cons_of_ne_nil _ _ (by simp),
    PathMod.joinSegs_cons_of_ne_nil _ _ hps_ne, hPj]
  apply String.ext
  simp [String.data_append]

/-- C4: for every path (made of ordinary segments), the `list` operation issues
a `GET` against the version-prefixed path `v1/<engine>/metadata/<path>` with
query parameter `list=true`, and partitions the backend's keys into `nodes`
(every key ending with `'/'`) and `leafs` (every other key), dropping and
duplicating no key. -/
theorem claim_C4 (engine path : String) (keys : List String) (ps : List String)
    (hE : PathMod.splitSlash engine = [engine])
    (hEn : PathMod.isNormalSeg engine)
    (hP : PathMod.splitSlash path = ps)
    (hPs : ps.all PathMod.isNormalSeg)
    (hPj : PathMod.joinSegs ps = path) :
    (listRequest engine path).method = "GET"
    ∧ (listRequest engine path).url = "v1/" ++ engine ++ "/metadata/" ++ path
    ∧ (listRequest engine path).queryParams = [("list", "true")]
    ∧ (listResult keys).nodes = keys.filter (fun k => k.endsWith "/")
    ∧ (listResult keys).leafs = keys.filter (fun k => !k.endsWith "/")
    ∧ ((listResult keys).nodes ++ (listResult keys).leafs).Perm keys := by
  refine ⟨rfl, ?_, rfl, ?_, ?_, ?_⟩
  · show ctxPathJoin engine ["metadata", path] = _
    have h := ctxPathJoin_metadata engine path ps hE hEn hP hPs hPj "metadata"
      (by decide) (by decide)
    rw [h]
    apply String.ext
    simp [String.data_append]
  · simp [listResult, List.partition_eq_filter_filter]
  · simp [listResult, List.partition_eq_filter_filter, Function.comp_def]
  · simp only [listResult, List.partition_eq_filter_filter]
    simpa [Function.comp_def] using
      List.filter_append_perm (fun key => key.endsWith "/") keys

theorem claim_C4_witness :
    (listRequest "onyxia-kv" "project/creds").url =
      "v1/" ++ "onyxia-kv" ++ "/metadata/" ++ "project/creds"
    ∧ (listResult ["a/", "b"]).nodes = (["a/", "b"]).filter (fun k => k.endsWith "/")
    ∧ ((listResult ["a/", "b"]).nodes ++ (listResult ["a/", "b"]).leafs).Perm
        ["a/", "b"] := by
  have h := claim_C4 "onyxia-kv" "project/creds" ["a/", "b"] ["project", "creds"]
    (by decide) (by decide) (by decide) (by decide) (by decide)
  exact ⟨h.2.1, h.2.2.2.1, h.2.2.2.2.2⟩

end Vault

namespace Vault

theorem fetchVaultToken_fst (login : String → String) (st : TokenState)
    (tok : String) (hwf : ∀ p ∈ st.memo, p.2 = login p.1) :
    (fetchVaultToken login st tok).1 = login tok := by
  unfold fetchVaultToken
  cases hfind : st.memo.find? (fun p => p.1 = tok) with
  | none => rfl
  | some p =>
    have hmem := List.mem_of_find?_eq_some hfind
    have hp : p.1 = tok := by simpa using List.find?_some hfind
    simp [hwf p hmem, hp]

theorem fetchVaultToken_wf (login : String → String) (st : TokenState)
    (tok : String) (hwf : ∀ p ∈ st.memo, p.2 = login p.1) :
    ∀ p ∈ (fetchVaultToken login st tok).2.memo, p.2 = login p.1 := by
  unfold fetchVaultToken
  cases hfind : st.memo.find? (fun p => p.1 = tok) with
  | none =>
    intro p hp
    simp only [List.mem_append, List.mem_singleton] at hp
    rcases hp with hp | hp
    · exact hwf p hp
    · subst hp; rfl
  | some q => exact hwf

theorem pipeAll_fst (login : String → String) (events : List (Option String)) :
    ∀ st : TokenState, (∀ p ∈ st.memo, p.2 = login p.1) →
      (pipeAll login st events).1 = events.map (Option.map login)
      ∧ (∀ p ∈ (pipeAll login st events).2.memo, p.2 = login p.1) := by
  induction events with
  | nil => intro st hwf; exact ⟨rfl, hwf⟩
  | cons e rest ih =>
    intro st hwf
    cases e with
    | none =>
      have h := ih st hwf
      simp only [pipeAll, pipeOne, List.map_cons, Option.map_none]
      exact ⟨by rw [h.1]; rfl, h.2⟩
    | some tok =>
      have hwf2 := fetchVaultToken_wf login st tok hwf
      have h := ih (fetchVaultToken login st tok).2 hwf2
      simp only [pipeAll, pipeOne, List.map_cons, Option.map_some]
      exact ⟨by rw [h.1, fetchVaultToken_fst login st tok hwf]; rfl, h.2⟩

theorem fetchVaultToken_calls (login : String → String) (st : TokenState)
    (tok : String) (hnd : st.calls.Nodup)
    (hck : ∀ t ∈ st.calls, ∃ p ∈ st.memo, p.1 = t) :
    (fetchVaultToken login st tok).2.calls.Nodup
    ∧ (∀ t ∈ (fetchVaultToken login st tok).2.calls,
        ∃ p ∈ (fetchVaultToken login st tok).2.memo, p.1 = t)
    ∧ (∀ t ∈ (fetchVaultToken login st tok).2.calls, t ∈ st.calls ∨ t = tok) := by
  unfold fetchVaultToken
  cases hfind : st.memo.find? (fun p => p.1 = tok) with
  | some q =>
    exact ⟨hnd, hck, fun t ht => Or.inl ht⟩
  | none =>
    have hfresh : tok ∉ st.calls := by
      intro hmem
      obtain ⟨p, hpmem, hpeq⟩ := hck tok hmem
      have := List.find?_eq_none.mp hfind p hpmem
      simp [hpeq] at this
    refine ⟨?_, ?_, ?_⟩
    · simpa [List.nodup_append] using ⟨hnd, hfresh⟩
    · intro t ht
      simp only [List.mem_append, List.mem_singleton] at ht
      rcases ht with ht | ht
      · obtain ⟨p, hpmem, hpeq⟩ := hck t ht
        exact ⟨p, by simp [hpmem], hpeq⟩
      · exact ⟨(tok, login tok), by simp, by simp [ht]⟩
    · intro t ht
      simp only [List.mem_append, List.mem_singleton] at ht
      rcases ht with ht | ht
      · exact Or.inl ht
      · exact Or.inr ht

theorem pipeAll_calls (login : String → String) (events : List (Option String)) :
    ∀ st : TokenState, st.calls.Nodup →
      (∀ t ∈ st.calls, ∃ p ∈ st.memo, p.1 = t) →
      (pipeAll login st events).2.calls.Nodup
      ∧ (∀ t ∈ (pipeAll login st events).2.calls,
          ∃ p ∈ (pipeAll login st events).2.memo, p.1 = t)
      ∧ (∀ t ∈ (pipeAll login st events).2.calls,
          t ∈ st.calls ∨ some t ∈ events) := by
  induction events with
  | nil => intro st hnd hck; exact ⟨hnd, hck, fun t ht => Or.inl ht⟩
  | cons e rest ih =>
    intro st hnd hck
    cases e with
    | none =>
      have h := ih st hnd hck
      simp only [pipeAll, pipeOne]
      exact ⟨h.1, h.2.1, fun t ht => (h.2.2 t ht).imp_right (fun hh => by simp [hh])⟩
    | some tok =>
      have hf := fetchVaultToken_calls login st tok hnd hck
      have h := ih (fetchVaultToken login st tok).2 hf.1 hf.2.1
      simp only [pipeAll, pipeOne]
      refine ⟨h.1, h.2.1, fun t ht => ?_⟩
      rcases h.2.2 t ht with hin | hin
      · rcases hf.2.2 t hin with hin2 | hin2
        · exact Or.inl hin2
        · exact Or.inr (by simp [hin2])
      · exact Or.inr (by simp [hin])

end Vault

namespace Vault

/-- C5: over any sequence of OIDC access-token change events, the derived
vault-token event is `undefined` exactly when the OIDC token is `undefined` and
otherwise is the `client_token` obtained by the `POST /v1/auth/jwt/login`
exchange for that OIDC token (`login`); the memoization exchanges every distinct
OIDC token at most once, and only tokens that actually occurred; and every
adapter request carries the awaited vault token in its `X-Vault-Token` header. -/
theorem claim_C5 (login : String → String) (events : List (Option String)) :
    (pipeAll login ⟨[], []⟩ events).1 = events.map (Option.map login)
    ∧ (pipeAll login ⟨[], []⟩ events).2.calls.Nodup
    ∧ (∀ t ∈ (pipeAll login ⟨[], []⟩ events).2.calls, some t ∈ events)
    ∧ (∀ vaultToken, interceptedHeaders vaultToken =
        [("X-Vault-Token", vaultToken)])
    ∧ loginRequestUrl = "/v1/auth/jwt/login" := by
  have h1 := pipeAll_fst login events ⟨[], []⟩ (by simp)
  have h2 := pipeAll_calls login events ⟨[], []⟩ (by simp) (by simp)
  refine ⟨h1.1, h2.1, fun t ht => ?_, fun _ => rfl, rfl⟩
  exact (h2.2.2 t ht).resolve_left (by simp)

theorem claim_C5_witness :
    (pipeAll (fun t => "vault-" ++ t) ⟨[], []⟩ [some "a", none, some "a"]).1 =
      ([some "a", none, some "a"]).map (Option.map (fun t => "vault-" ++ t))
    ∧ (pipeAll (fun t => "vault-" ++ t) ⟨[], []⟩
        [some "a", none, some "a"]).2.calls.Nodup
    ∧ some "a" ∈ [some "a", none, some "a"] :=
  ⟨(claim_C5 (fun t => "vault-" ++ t) [some "a", none, some "a"]).1,
    (claim_C5 (fun t => "vault-" ++ t) [some "a", none, some "a"]).2.1,
    (claim_C5 (fun t => "vault-" ++ t) [some "a", none, some "a"]).2.2.1 "a"
      (by decide)⟩

end Vault

namespace Vault

theorem pathJoin_engine_path (engine path : String) (ps : List String)
    (hE : PathMod.splitSlash engine = [engine])
    (hEn : PathMod.isNormalSeg engine)
    (hP : PathMod.splitSlash path = ps)
    (hPs : ps.all PathMod.isNormalSeg)
    (hPj : PathMod.joinSegs ps = path) :
    PathMod.pathJoin [engine, path] = engine ++ "/" ++ path := by
  have hps_ne : ps ≠ [] := hP ▸ PathMod.splitSlash_ne_nil path
  have hf : ([engine, path]).flatMap PathMod.splitSlash = engine :: ps := by
    simp [List.flatMap_cons, List.flatMap_nil, hE, hP]
  have hall : (engine :: ps).all PathMod.isNormalSeg := by
    simp [List.all_cons, hEn, hPs]
  rw [PathMod.pathJoin_of_flat _ _ hf hall,
    PathMod.joinSegs_cons_of_ne_nil _ _ hps_ne, hPj]

theorem renderEntry_eq (jsonStringify : Json → String) (k : String) (v : Json) :
    k ++ "=" ++ renderSecretValue jsonStringify v =
      specRenderEntry jsonStringify k v := by
  cases v <;>
    · apply String.ext
      simp [renderSecretValue, specRenderEntry, Json.isString, Json.isNumOrBool,
        Json.plainRender, Json.strVal, joinWith, String.data_append]

/-- C6: for each of the four operations, `buildCmd` yields
`vault kv <op> <engine/path>` — the spec-side command over exactly the
engine-relative path that the HTTP adapter addresses under
`v1/<engine>/metadata/<path>` (list) or `v1/<engine>/data/<path>`
(get/put/delete) — and `put` renders each secret entry as `key=value` with
strings quoted and inner double quotes backslash-escaped, numbers and booleans
unquoted, and other values as a JSON heredoc. -/
theorem claim_C6 (jsonStringify : Json → String) (engine path : String)
    (ps : List String) (secret : List (String × Json))
    (hE : PathMod.splitSlash engine = [engine])
    (hEn : PathMod.isNormalSeg engine)
    (hP : PathMod.splitSlash path = ps)
    (hPs : ps.all PathMod.isNormalSeg)
    (hPj : PathMod.joinSegs ps = path) :
    buildListCmd engine path = specCliCmd "list" engine path
    ∧ (listRequest engine path).url = "v1/" ++ engine ++ "/metadata/" ++ path
    ∧ buildGetCmd engine path = specCliCmd "get" engine path
    ∧ (getRequest engine path).url = "v1/" ++ engine ++ "/data/" ++ path
    ∧ buildDeleteCmd engine path = specCliCmd "delete" engine path
    ∧ (deleteRequest engine path).url = "v1/" ++ engine ++ "/data/" ++ path
    ∧ buildPutCmd jsonStringify engine path secret =
        joinWith " \\\n" (specCliCmd "put" engine path ::
          secret.map (fun kv => specRenderEntry jsonStringify kv.1 kv.2))
    ∧ (putRequest engine path).url = "v1/" ++ engine ++ "/data/" ++ path := by
  have hep := pathJoin_engine_path engine path ps hE hEn hP hPs hPj
  have hmeta := ctxPathJoin_metadata engine path ps hE hEn hP hPs hPj "metadata"
    (by decide) (by decide)
  have hdata := ctxPathJoin_metadata engine path ps hE hEn hP hPs hPj "data"
    (by decide) (by decide)
  have hcmd : ∀ op : String, "vault kv " ++ op ++ " " ++ PathMod.pathJoin [engine, path]
      = specCliCmd op engine path := by
    intro op
    rw [hep]
    apply String.ext
    simp [specCliCmd, String.data_append]
  have hurlmeta : ctxPathJoin engine ["metadata", path] =
      "v1/" ++ engine ++ "/metadata/" ++ path := by
    rw [hmeta]; apply String.ext; simp [String.data_append]
  have hurldata : ctxPathJoin engine ["data", path] =
      "v1/" ++ engine ++ "/data/" ++ path := by
    rw [hdata]; apply String.ext; simp [String.data_append]
  refine ⟨?_, hurlmeta, ?_, hurldata, ?_, hurldata, ?_, hurldata⟩
  · rw [← hcmd "list"]
    unfold buildListCmd
    apply String.ext
    simp [String.data_append]
  · rw [← hcmd "get"]
    unfold buildGetCmd
    apply String.ext
    simp [String.data_append]
  · rw [← hcmd "delete"]
    unfold buildDeleteCmd
    apply String.ext
    simp [String.data_append]
  · unfold buildPutCmd
    have hmap : secret.map
        (fun kv => kv.1 ++ "=" ++ renderSecretValue jsonStringify kv.2) =
        secret.map (fun kv => specRenderEntry jsonStringify kv.1 kv.2) := by
      have hfun : (fun kv : String × Json =>
          kv.1 ++ "=" ++ renderSecretValue jsonStringify kv.2) =
          fun kv => specRenderEntry jsonStringify kv.1 kv.2 :=
        funext (fun kv => renderEntry_eq jsonStringify kv.1 kv.2)
      rw [hfun]
    rw [hmap, ← hcmd "put"]
    have hhead : ("vault kv put " ++ PathMod.pathJoin [engine, path]) =
        "vault kv " ++ "put" ++ " " ++ PathMod.pathJoin [engine, path] := by
      apply String.ext
      simp [String.data_append]
    rw [hhead]

theorem claim_C6_witness :
    buildListCmd "kv" "proj/a" = specCliCmd "list" "kv" "proj/a"
    ∧ (listRequest "kv" "proj/a").url = "v1/" ++ "kv" ++ "/metadata/" ++ "proj/a"
    ∧ buildPutCmd (fun _ => "null") "kv" "proj/a"
        [("user", .str "bo\"b"), ("n", .num 5), ("flag", .bool true), ("meta", .obj [])] =
      joinWith " \\\n" (specCliCmd "put" "kv" "proj/a" ::
        ([("user", Json.str "bo\"b"), ("n", Json.num 5), ("flag", Json.bool true),
          ("meta", Json.obj [])]).map
          (fun kv => specRenderEntry (fun _ => "null") kv.1 kv.2)) := by
  have h := claim_C6 (fun _ => "null") "kv" "proj/a" ["proj", "a"]
    [("user", .str "bo\"b"), ("n", .num 5), ("flag", .bool true), ("meta", .obj [])]
    (by decide) (by decide) (by decide) (by decide) (by decide)
  exact ⟨h.1, h.2.1, h.2.2.2.2.2.2.1⟩

end Vault

namespace Usecases

/-- The feature modules imported by `web/src/core/usecases/index.ts`, one
constructor per `import * as <name> from "./<name>"` line. -/
inductive UsecaseModule where
  | catalog : UsecaseModule
  | deploymentRegionManagement : UsecaseModule
  | fileExplorer : UsecaseModule
  | secretExplorer : UsecaseModule
  | launcher : UsecaseModule
  | publicIp : UsecaseModule
  | restorableConfigManagement : UsecaseModule
  | serviceManagement : UsecaseModule
  | userAuthentication : UsecaseModule
  | userConfigs : UsecaseModule
  | secretsEditor : UsecaseModule
  | s3Credentials : UsecaseModule
  | k8sCredentials : UsecaseModule
  | vaultCredentials : UsecaseModule
  | userAccountManagement : UsecaseModule
  | sqlOlapShell : UsecaseModule
  | dataExplorer : UsecaseModule
  | projectManagement : UsecaseModule
  deriving DecidableEq, Repr

/-- The module's import name. -/
def UsecaseModule.name : UsecaseModule → String
  | .catalog => "catalog"
  | .deploymentRegionManagement => "deploymentRegionManagement"
  | .fileExplorer => "fileExplorer"
  | .secretExplorer => "secretExplorer"
  | .launcher => "launcher"
  | .publicIp => "publicIp"
  | .restorableConfigManagement => "restorableConfigManagement"
  | .serviceManagement => "serviceManagement"
  | .userAuthentication => "userAuthentication"
  | .userConfigs => "userConfigs"
  | .secretsEditor => "secretsEditor"
  | .s3Credentials => "s3Credentials"
  | .k8sCredentials => "k8sCredentials"
  | .vaultCredentials => "vaultCredentials"
  | .userAccountManagement => "userAccountManagement"
  | .sqlOlapShell => "sqlOlapShell"
  | .dataExplorer => "dataExplorer"
  | .projectManagement => "projectManagement"

/-- The modules imported by the file, in import order. -/
def importedModules : List UsecaseModule :=
  [.catalog, .deploymentRegionManagement, .fileExplorer, .secretExplorer,
    .launcher, .publicIp, .restorableConfigManagement, .serviceManagement,
    .userAuthentication, .userConfigs, .secretsEditor, .s3Credentials,
    .k8sCredentials, .vaultCredentials, .userAccountManagement, .sqlOlapShell,
    .dataExplorer, .projectManagement]

/-- The exported `usecases` object: one key per module, in the order of the
object literal, each key bound to the module of the same name. -/
def usecases : List (String × UsecaseModule) :=
  [("catalog", .catalog), ("deploymentRegionManagement", .deploymentRegionManagement),
    ("fileExplorer", .fileExplorer), ("secretExplorer", .secretExplorer),
    ("launcher", .launcher), ("publicIp", .publicIp),
    ("restorableConfigManagement", .restorableConfigManagement),
    ("serviceManagement", .serviceManagement),
    ("userAuthentication", .userAuthentication), ("userConfigs", .userConfigs),
    ("secretsEditor", .secretsEditor), ("s3Credentials", .s3Credentials),
    ("k8sCredentials", .k8sCredentials), ("vaultCredentials", .vaultCredentials),
    ("userAccountManagement", .userAccountManagement),
    ("sqlOlapShell", .sqlOlapShell), ("dataExplorer", .dataExplorer),
    ("projectManagement", .projectManagement)]

/-- C7: the exported `usecases` object contains exactly the feature modules
imported in the file — one key per imported module, with no duplicate and no
extra key, each module re-exported unchanged under its own import name (the
file, an aggregation index, holds 18 modules, the spec's "~17"). -/
theorem claim_C7 :
    usecases.map Prod.fst = importedModules.map UsecaseModule.name
    ∧ usecases.map Prod.snd = importedModules
    ∧ (∀ kv ∈ usecases, kv.1 = UsecaseModule.name kv.2)
    ∧ (usecases.map Prod.fst).Nodup
    ∧ usecases.length = 18 := by
  refine ⟨rfl, rfl, ?_, by decide, rfl⟩
  intro kv hkv
  fin_cases hkv <;> rfl

theorem claim_C7_witness :
    ("launcher", UsecaseModule.launcher).1 =
      UsecaseModule.name ("launcher", UsecaseModule.launcher).2 :=
  claim_C7.2.2.1 ("launcher", .launcher) (by decide)

end Usecases

namespace SearchBar

/-- The local state of the `SearchBar` component: the `isActive` and `search`
`useState` hooks. -/
structure UiState where
  isActive : Bool
  search : String
  deriving DecidableEq, Repr

/-- The initial state: `useState(false)` and `useState("")`. -/
def initialState : UiState := { isActive := false, search := "" }

/-- The user events the component handles. -/
inductive Event where
  | inputChange (value : String) : Event
  | clearClick : Event
  | keyDown (key : String) : Event
  | rootClick : Event
  | iconClick : Event
  | clickAway : Event
  deriving DecidableEq, Repr

/-- The outputs of an event: calls of the `onSearchChange` prop. -/
inductive Output where
  | searchChange (value : String) : Output
  deriving DecidableEq, Repr

/-- One event step of the component, from its handlers: `onInputChange` sets
the search text and calls `onSearchChange`; `onClearButtonClick` resets the
text (and focuses the input) without notifying; `onInputKeyDown` ignores keys
other than Escape and Enter, resets the text on Escape, and deactivates when
the pre-event text was empty; `onRootClick` activates; `onIconClick` only
focuses; the click-away handler deactivates when the text is empty. -/
def step (s : UiState) : Event → UiState × List Output
  | .inputChange v => ({ s with search := v }, [.searchChange v])
  | .clearClick => ({ s with search := "" }, [])
  | .keyDown k =>
    if k ≠ "Escape" ∧ k ≠ "Enter" then (s, [])
    else
      let s1 := if k = "Escape" then { s with search := "" } else s
      if s.search ≠ "" then (s1, [])
      else ({ s1 with isActive := false }, [])
  | .rootClick => ({ s with isActive := true }, [])
  | .iconClick => (s, [])
  | .clickAway =>
    if s.search ≠ "" then (s, []) else ({ s with isActive := false }, [])

/-- Run a sequence of events, collecting the `onSearchChange` notifications in
order. -/
def run (s : UiState) : List Event → UiState × List Output
  | [] => (s, [])
  | e :: rest =>
    let r := step s e
    let rr := run r.1 rest
    (rr.1, r.2 ++ rr.2)

/-- C10: `onSearchChange` is invoked only by input change events; the clear
button and the Escape key reset the local search text to the empty string and
never notify; hence after activating, typing `"ab"` and clearing, the
displayed text is empty while the parent's last notified value is `"ab"`. -/
theorem claim_C10 :
    (∀ s e, (step s e).2 ≠ [] →
      ∃ v, e = .inputChange v ∧ (step s e).2 = [.searchChange v])
    ∧ (∀ s : UiState, (step s .clearClick).1.search = "" ∧ (step s .clearClick).2 = [])
    ∧ (∀ s : UiState, (step s (.keyDown "Escape")).1.search = ""
        ∧ (step s (.keyDown "Escape")).2 = [])
    ∧ ((run initialState [.rootClick, .inputChange "ab", .clearClick]).1.search = ""
        ∧ (run initialState [.rootClick, .inputChange "ab", .clearClick]).2 =
            [.searchChange "ab"]) := by
  refine ⟨?_, ?_, ?_, by decide⟩
  · intro s e h
    cases e with
    | inputChange v => exact ⟨v, rfl, rfl⟩
    | clearClick => simp [step] at h
    | keyDown k =>
      simp only [step] at h
      split at h
      · simp at h
      · split at h <;> simp at h
    | rootClick => simp [step] at h
    | iconClick => simp [step] at h
    | clickAway =>
      simp only [step] at h
      split at h <;> simp at h
  · intro s; exact ⟨rfl, rfl⟩
  · intro s
    constructor
    · simp [step]
      split <;> rfl
    · simp [step]
      split <;> rfl

theorem claim_C10_witness :
    (∃ v, Event.inputChange "x" = Event.inputChange v
      ∧ (step initialState (.inputChange "x")).2 = [.searchChange v])
    ∧ (step { isActive := true, search := "ab" } .clearClick).1.search = "" :=
  ⟨claim_C10.1 initialState (.inputChange "x") (by decide),
    (claim_C10.2.1 { isActive := true, search := "ab" }).1⟩

end SearchBar

namespace Launcher

/-- One entry of `chart.versions`. -/
structure ChartVersion where
  version : String
  iconUrl : Option String
  deriving DecidableEq, Repr

/-- A chart of a catalog. -/
structure Chart where
  name : String
  versions : List ChartVersion
  deriving DecidableEq, Repr

/-- A catalog, as used by `getChartInfos`. -/
structure Catalog where
  id : String
  name : String
  repositoryUrl : String
  deriving DecidableEq, Repr

/-- The record returned by `getChartInfos`. -/
structure ChartInfos where
  catalogName : String
  catalogRepositoryUrl : String
  chartIconUrl : Option String
  defaultChartVersion : String
  chartVersion : String
  availableChartVersions : List String
  deriving DecidableEq, Repr

/-- The chart-version resolution IIFE of `getChartInfos`: a defined pinned
version that is among the chart's versions is kept; a pinned version not found
among them falls back (after an alert) to the default version; an undefined
pinned version resolves to the default version. -/
def resolveChartVersion (defaultChartVersion : String)
    (versions : List ChartVersion) (pinned : Option String) : String :=
  match pinned with
  | some pv =>
    if (versions.find? (fun v => v.version = pv)).isSome then pv
    else defaultChartVersion
  | none => defaultChartVersion

/-- Model of `getChartInfos`: `getDefaultVersion` stands for
`Chart.getDefaultVersion` (not part of the excerpt); the `assert` failures and
the non-null `!` access on the icon-url lookup are modelled as `none`. -/
def getChartInfos (getDefaultVersion : Chart → String) (catalogs : List Catalog)
    (chartsByCatalogId : List (String × List Chart)) (catalogId chartName : String)
    (pinnedChartVersion : Option String) : Option ChartInfos :=
  match catalogs.find? (fun c => c.id = catalogId) with
  | none => none
  | some catalog =>
    match chartsByCatalogId.find? (fun p => p.1 = catalogId) with
    | none => none
    | some pair =>
      match pair.2.find? (fun ch => ch.name = chartName) with
      | none => none
      | some chart =>
        let defaultChartVersion := getDefaultVersion chart
        let chartVersion :=
          resolveChartVersion defaultChartVersion chart.versions pinnedChartVersion
        match chart.versions.find? (fun v => v.version = chartVersion) with
        | none => none
        | some v =>
          some { catalogName := catalog.name
                 catalogRepositoryUrl := catalog.repositoryUrl
                 chartIconUrl := v.iconUrl
                 defaultChartVersion := defaultChartVersion
                 chartVersion := chartVersion
                 availableChartVersions := chart.versions.map ChartVersion.version }

theorem resolveChartVersion_mem (defaultChartVersion : String)
    (versions : List ChartVersion) (pinned : Option String)
    (hd : defaultChartVersion ∈ versions.map ChartVersion.version) :
    resolveChartVersion defaultChartVersion versions pinned ∈
      versions.map ChartVersion.version := by
  cases pinned with
  | none => exact hd
  | some pv =>
    simp only [resolveChartVersion]
    by_cases h : (versions.find? (fun v => v.version = pv)).isSome
    · rw [if_pos h]
      rw [List.find?_isSome] at h
      obtain ⟨v, hv, hpv⟩ := h
      simp only [decide_eq_true_eq] at hpv
      exact List.mem_map.mpr ⟨v, hv, hpv⟩
    · rw [if_neg h]
      exact hd

/-- C9: the resolution of the chart version in `getChartInfos`: an undefined
pinned version, and a pinned version that is not among the chart's available
versions, both resolve to the chart's default version; a pinned version among
them is kept; consequently, whenever the default version is one of the chart's
versions, the resolved version is a member of `chart.versions` — in particular
any result of `getChartInfos` has its `chartVersion` among its
`availableChartVersions`. -/
theorem claim_C9 (getDefaultVersion : Chart → String) (catalogs : List Catalog)
    (chartsByCatalogId : List (String × List Chart)) (catalogId chartName : String)
    (pinned : Option String) (defaultChartVersion : String)
    (versions : List ChartVersion) :
    (resolveChartVersion defaultChartVersion versions none = defaultChartVersion)
    ∧ (∀ pv, pv ∉ versions.map ChartVersion.version →
        resolveChartVersion defaultChartVersion versions (some pv) = defaultChartVersion)
    ∧ (∀ pv, pv ∈ versions.map ChartVersion.version →
        resolveChartVersion defaultChartVersion versions (some pv) = pv)
    ∧ (defaultChartVersion ∈ versions.map ChartVersion.version →
        resolveChartVersion defaultChartVersion versions pinned ∈
          versions.map ChartVersion.version)
    ∧ (∀ infos, (∀ ch, getDefaultVersion ch ∈ ch.versions.map ChartVersion.version) →
        getChartInfos getDefaultVersion catalogs chartsByCatalogId catalogId
          chartName pinned = some infos →
        infos.chartVersion ∈ infos.availableChartVersions) := by
  refine ⟨rfl, ?_, ?_, ?_, ?_⟩
  · intro pv hpv
    simp only [resolveChartVersion]
    rw [if_neg]
    intro hsome
    rw [List.find?_isSome] at hsome
    obtain ⟨v, hv, hveq⟩ := hsome
    simp only [decide_eq_true_eq] at hveq
    exact hpv (List.mem_map.mpr ⟨v, hv, hveq⟩)
  · intro pv hpv
    simp only [resolveChartVersion]
    rw [if_pos]
    rw [List.find?_isSome]
    obtain ⟨v, hv, hveq⟩ := List.mem_map.mp hpv
    exact ⟨v, hv, by simp [hveq]⟩
  · exact resolveChartVersion_mem defaultChartVersion versions pinned
  · intro infos hdv h
    unfold getChartInfos at h
    cases h1 : catalogs.find? (fun c => c.id = catalogId) with
    | none => simp [h1] at h
    | some catalog =>
      simp only [h1] at h
      cases h2 : chartsByCatalogId.find? (fun p => p.1 = catalogId) with
      | none => simp [h2] at h
      | some pair =>
        simp only [h2] at h
        cases h3 : pair.2.find? (fun ch => ch.name = chartName) with
        | none => simp [h3] at h
        | some chart =>
          simp only [h3] at h
          cases h4 : chart.versions.find? (fun v => v.version =
              resolveChartVersion (getDefaultVersion chart) chart.versions pinned) with
          | none => simp [h4] at h
          | some v =>
            simp only [h4, Option.some.injEq] at h
            subst h
            exact resolveChartVersion_mem (getDefaultVersion chart) chart.versions
              pinned (hdv chart)

theorem claim_C9_witness :
    resolveChartVersion "2.0.0" [⟨"1.0.0", none⟩, ⟨"2.0.0", none⟩] (some "9.9.9")
        = "2.0.0"
    ∧ resolveChartVersion "2.0.0" [⟨"1.0.0", none⟩, ⟨"2.0.0", none⟩] (some "1.0.0")
        ∈ ([⟨"1.0.0", none⟩, ⟨"2.0.0", none⟩] : List ChartVersion).map
            ChartVersion.version := by
  have h := claim_C9 (fun _ => "2.0.0") [] [] "" "" (some "1.0.0") "2.0.0"
    [⟨"1.0.0", none⟩, ⟨"2.0.0", none⟩]
  exact ⟨h.2.1 "9.9.9" (by decide), h.2.2.2.1 (by decide)⟩

end Launcher

namespace XOnyxia

/-- The authenticated user (`userAuthentication.selectors.user`). -/
structure UserInfo where
  username : String
  familyName : String
  firstName : String
  email : String
  deriving DecidableEq, Repr

/-- The user configs slice (`userConfigsUsecase.selectors.userConfigs`). -/
structure UserConfigs where
  isDarkModeEnabled : Bool
  gitName : String
  gitEmail : String
  gitCredentialCacheDuration : Int
  githubPersonalAccessToken : Option String
  kaggleApiToken : Option String
  deriving DecidableEq, Repr

/-- The current project (`projectManagement.selectors.currentProject`). -/
structure Project where
  id : String
  group : Option String
  deriving DecidableEq, Repr

/-- The `vault` part of the deployment region. -/
structure VaultRegion where
  url : String
  kvEngine : String
  deriving DecidableEq, Repr

/-- The `workingDirectory` of the region's s3 params: either per-user/per-group
bucket prefixes (`bucketMode: "multi"`, source field names `bucketNamePrefix`
and `bucketNamePrefixGroup`) or a single shared bucket. -/
inductive WorkingDirectory where
  | multi (bucketNamePrefixUser : String) (bucketNamePrefixGroup : String) :
      WorkingDirectory
  | shared (bucketName : String) : WorkingDirectory
  deriving DecidableEq, Repr

/-- The `s3Params` of the deployment region; `sts` is opaque, only its presence
matters. -/
structure S3Params where
  url : String
  sts : Option Unit
  region : Option String
  pathStyleAccess : Bool
  workingDirectory : WorkingDirectory
  deriving DecidableEq, Repr

/-- The deployment region
(`deploymentRegionSelection.selectors.currentDeploymentRegion`); configuration
payloads that are merely passed through are modelled as optional JSON values. -/
structure Region where
  vault : Option VaultRegion
  s3Params : Option S3Params
  defaultIpProtection : Option Bool
  defaultNetworkPolicy : Option Bool
  allowedURIPatternForUserDefinedInitScript : String
  kafka : Option Vault.Json
  fromField : Option Vault.Json
  tolerations : Option Vault.Json
  nodeSelector : Option Vault.Json
  startupProbe : Option Vault.Json
  sliders : Option Vault.Json
  resources : Option Vault.Json
  customValues : Option Vault.Json
  kubernetesClusterDomain : String
  ingressClassName : Option String
  ingress : Option Bool
  route : Option Bool
  istio : Option Vault.Json
  initScriptUrl : Option String
  proxyInjection : Option Vault.Json
  packageRepositoryInjection : Option Vault.Json
  certificateAuthorityInjection : Option Vault.Json

/-- One entry of the project's custom S3 configurations. -/
structure CustomS3Config where
  url : String
  accessKeyId : String
  secretAccessKey : String
  sessionToken : Option String
  region : String
  workingDirectoryPath : String
  pathStyleAccess : Bool
  deriving DecidableEq, Repr

/-- The project's custom S3 configurations
(`currentProjectConfigs.customS3Configs`). -/
structure CustomS3Configs where
  indexForXOnyxia : Option Nat
  availableConfigs : List CustomS3Config
  deriving DecidableEq, Repr

/-- The ambient library functions of `getXOnyxiaContext`:
`btoa(unescape(encodeURIComponent(s)))`, `parseUrl` (host and optional port),
and `bucketNameAndObjectNameFromS3Path(path).bucketName`. -/
structure Env where
  basicEncode : String → String
  parseUrl : String → String × Option Nat
  bucketNameFromPath : String → String

/-- All the data `getXOnyxiaContext` reads from the store, the adapters and the
random generators. -/
structure Inputs where
  publicIp : String
  user : UserInfo
  userConfigs : UserConfigs
  region : Region
  servicePassword : String
  project : Project
  disablePersonalInfosInjectionInGroup : Bool
  lang : String
  customS3Configs : CustomS3Configs
  secretsManagerToken : String
  s3TokenAccessKeyId : String
  s3TokenSecretAccessKey : String
  s3TokenSessionToken : Option String
  homeDirectoryPath : String
  oneTimePassword : String
  randomSubdomain : String

/-- The `user` block of the context. -/
structure UserCtx where
  idep : String
  name : String
  email : String
  password : String
  ip : String
  darkMode : Bool
  lang : String
  deriving DecidableEq, Repr

/-- The `project` block of the context. -/
structure ProjectCtx where
  id : String
  password : String
  basic : String
  deriving DecidableEq, Repr

/-- The `git` block of the context. -/
structure GitCtx where
  name : String
  email : String
  credentialsCacheDuration : Int
  token : Option String
  deriving DecidableEq, Repr

/-- The `vault` block of the context. -/
structure VaultCtx where
  VAULT_ADDR : String
  VAULT_TOKEN : String
  VAULT_MOUNT : String
  VAULT_TOP_DIR : String
  deriving DecidableEq, Repr

/-- The `s3` block of the context. -/
structure S3Ctx where
  AWS_ACCESS_KEY_ID : String
  AWS_BUCKET_NAME : String
  AWS_SECRET_ACCESS_KEY : String
  AWS_SESSION_TOKEN : String
  AWS_DEFAULT_REGION : String
  AWS_S3_ENDPOINT : String
  port : Nat
  pathStyleAccess : Bool
  deriving DecidableEq, Repr

/-- The `region` block of the context. -/
structure RegionCtx where
  defaultIpProtection : Option Bool
  defaultNetworkPolicy : Option Bool
  allowedURIPattern : String
  kafka : Option Vault.Json
  fromField : Option Vault.Json
  tolerations : Option Vault.Json
  nodeSelector : Option Vault.Json
  startupProbe : Option Vault.Json
  sliders : Option Vault.Json
  resources : Option Vault.Json
  customValues : Vault.Json

/-- The `k8s` block of the context. -/
structure K8sCtx where
  domain : String
  ingressClassName : Option String
  ingress : Option Bool
  route : Option Bool
  istio : Option Vault.Json
  randomSubdomain : String
  initScriptUrl : Option String

/-- The `XOnyxiaContext` assembled for chart templating. -/
structure XOnyxiaContext where
  user : UserCtx
  serviceOneTimePassword : String
  project : ProjectCtx
  git : GitCtx
  vault : VaultCtx
  kaggleApiToken : Option String
  s3 : S3Ctx
  region : RegionCtx
  k8s : K8sCtx
  proxyInjection : Option Vault.Json
  packageRepositoryInjection : Option Vault.Json
  certificateAuthorityInjection : Option Vault.Json

end XOnyxia

namespace XOnyxia

/-- The `vault` block computation: an absent region vault yields empty strings;
otherwise `VAULT_TOKEN` is the secrets-manager token only when personal-info
injection is enabled. -/
def computeVault (i : Inputs) (doInjectPersonalInfos : Bool) : VaultCtx :=
  match i.region.vault with
  | none =>
    { VAULT_ADDR := "", VAULT_TOKEN := "", VAULT_MOUNT := "", VAULT_TOP_DIR := "" }
  | some v =>
    { VAULT_ADDR := v.url
      VAULT_TOKEN := if !doInjectPersonalInfos then "" else i.secretsManagerToken
      VAULT_MOUNT := v.kvEngine
      VAULT_TOP_DIR := i.homeDirectoryPath }

/-- The `s3` block with every field empty (`region.s3Params?.sts` undefined). -/
def emptyS3 : S3Ctx :=
  { AWS_ACCESS_KEY_ID := "", AWS_SECRET_ACCESS_KEY := "", AWS_SESSION_TOKEN := ""
    AWS_BUCKET_NAME := "", AWS_DEFAULT_REGION := "", AWS_S3_ENDPOINT := ""
    port := 0, pathStyleAccess := true }

/-- The `AWS_BUCKET_NAME` of the STS branch.  The source interpolates
`project.group` into a template string even when it is `undefined`, which JS
renders as the text `undefined`. -/
def stsBucketName (i : Inputs) (wd : WorkingDirectory) : String :=
  match wd with
  | .multi pfxUser pfxGroup =>
    match i.project.group with
    | none => pfxGroup ++ "undefined"
    | some _ => pfxUser ++ i.user.username
  | .shared bucketName => bucketName

/-- The `s3` block computation of `getXOnyxiaContext`: a custom project S3
config designated for xOnyxia wins (`inject_from_project_config`); otherwise,
without STS params every field is empty; with STS params the credentials come
from `s3Client.getToken` when personal-info injection is enabled and are empty
strings otherwise.  The `assert` failures (missing designated config, missing
session token) are modelled as `none`. -/
def computeS3 (env : Env) (i : Inputs) (doInjectPersonalInfos : Bool) :
    Option S3Ctx :=
  match i.customS3Configs.indexForXOnyxia with
  | some idx =>
    match i.customS3Configs.availableConfigs[idx]? with
    | none => none
    | some dataSource =>
      let hp := env.parseUrl dataSource.url
      some
        { AWS_ACCESS_KEY_ID := dataSource.accessKeyId
          AWS_BUCKET_NAME := env.bucketNameFromPath dataSource.workingDirectoryPath
          AWS_SECRET_ACCESS_KEY := dataSource.secretAccessKey
          AWS_SESSION_TOKEN := dataSource.sessionToken.getD ""
          AWS_DEFAULT_REGION := dataSource.region
          AWS_S3_ENDPOINT := hp.1
          port := hp.2.getD 443
          pathStyleAccess := dataSource.pathStyleAccess }
  | none =>
    match i.region.s3Params with
    | none => some emptyS3
    | some sp =>
      match sp.sts with
      | none => some emptyS3
      | some _ =>
        let hp := env.parseUrl sp.url
        let keys : Option (String × String × String) :=
          if !doInjectPersonalInfos then some ("", "", "")
          else
            match i.s3TokenSessionToken with
            | none => none
            | some sessionToken =>
              some (i.s3TokenAccessKeyId, i.s3TokenSecretAccessKey, sessionToken)
        match keys with
        | none => none
        | some ks =>
          some
            { AWS_ACCESS_KEY_ID := ks.1
              AWS_SECRET_ACCESS_KEY := ks.2.1
              AWS_SESSION_TOKEN := ks.2.2
              AWS_BUCKET_NAME := stsBucketName i sp.workingDirectory
              AWS_DEFAULT_REGION := sp.region.getD ""
              AWS_S3_ENDPOINT := hp.1
              port := hp.2.getD 443
              pathStyleAccess := sp.pathStyleAccess }

/-- Model of `getXOnyxiaContext`: assembles the deployment context;
`doInjectPersonalInfos` holds when the project has no group or personal-info
injection in groups is not disabled. -/
def getXOnyxiaContext (env : Env) (i : Inputs) : Option XOnyxiaContext :=
  let doInjectPersonalInfos :=
    i.project.group.isNone || !i.disablePersonalInfosInjectionInGroup
  match computeS3 env i doInjectPersonalInfos with
  | none => none
  | some s3 =>
    some
      { user :=
          { idep := i.user.username
            name := i.user.familyName ++ " " ++ i.user.firstName
            email := i.user.email
            password := i.servicePassword
            ip := if !doInjectPersonalInfos then "0.0.0.0" else i.publicIp
            darkMode := i.userConfigs.isDarkModeEnabled
            lang := i.lang }
        serviceOneTimePassword := i.oneTimePassword
        project :=
          { id := i.project.id
            password := i.servicePassword
            basic := env.basicEncode (i.project.id ++ ":" ++ i.servicePassword) }
        git :=
          if !doInjectPersonalInfos then
            { name := "", email := "", credentialsCacheDuration := 0, token := none }
          else
            { name := i.userConfigs.gitName
              email := i.userConfigs.gitEmail
              credentialsCacheDuration := i.userConfigs.gitCredentialCacheDuration
              token := i.userConfigs.githubPersonalAccessToken }
        vault := computeVault i doInjectPersonalInfos
        kaggleApiToken :=
          if !doInjectPersonalInfos then none else i.userConfigs.kaggleApiToken
        s3 := s3
        region :=
          { defaultIpProtection := i.region.defaultIpProtection
            defaultNetworkPolicy := i.region.defaultNetworkPolicy
            allowedURIPattern := i.region.allowedURIPatternForUserDefinedInitScript
            kafka := i.region.kafka
            fromField := i.region.fromField
            tolerations := i.region.tolerations
            nodeSelector := i.region.nodeSelector
            startupProbe := i.region.startupProbe
            sliders := i.region.sliders
            resources := i.region.resources
            customValues := i.region.customValues.getD (Vault.Json.obj []) }
        k8s :=
          { domain := i.region.kubernetesClusterDomain
            ingressClassName := i.region.ingressClassName
            ingress := i.region.ingress
            route := i.region.route
            istio := i.region.istio
            randomSubdomain := i.randomSubdomain
            initScriptUrl := i.region.initScriptUrl }
        proxyInjection := i.region.proxyInjection
        packageRepositoryInjection := i.region.packageRepositoryInjection
        certificateAuthorityInjection := i.region.certificateAuthorityInjection }

/-- The projection of the personal fields named by the claim: `user.ip`, the
`git` block, `VAULT_TOKEN`, `kaggleApiToken`, and the three AWS credential
fields. -/
def personalProj (c : XOnyxiaContext) :
    String × GitCtx × String × Option String × String × String × String :=
  (c.user.ip, c.git, c.vault.VAULT_TOKEN, c.kaggleApiToken,
    c.s3.AWS_ACCESS_KEY_ID, c.s3.AWS_SECRET_ACCESS_KEY, c.s3.AWS_SESSION_TOKEN)

end XOnyxia

namespace XOnyxia

/-- Concrete ambient functions for the counterexample and witnesses. -/
def envC8 : Env :=
  { basicEncode := fun s => s
    parseUrl := fun _ => ("minio.example.com", some 9000)
    bucketNameFromPath := fun _ => "bucket" }

/-- A region with no vault and no s3 params. -/
def regionC8 : Region :=
  { vault := none, s3Params := none, defaultIpProtection := none
    defaultNetworkPolicy := none
    allowedURIPatternForUserDefinedInitScript := "^https://"
    kafka := none, fromField := none, tolerations := none, nodeSelector := none
    startupProbe := none, sliders := none, resources := none, customValues := none
    kubernetesClusterDomain := "k8s.example.com", ingressClassName := none
    ingress := none, route := none, istio := none, initScriptUrl := none
    proxyInjection := none, packageRepositoryInjection := none
    certificateAuthorityInjection := none }

/-- Inputs of a run inside a group with personal-info injection disabled and a
custom project S3 config designated for xOnyxia. -/
def inputsC8 : Inputs :=
  { publicIp := "203.0.113.7"
    user := { username := "jdoe", familyName := "Doe", firstName := "Jane",
              email := "jd@example.com" }
    userConfigs := { isDarkModeEnabled := true, gitName := "Jane Doe",
                     gitEmail := "jd@example.com", gitCredentialCacheDuration := 3600,
                     githubPersonalAccessToken := some "ghp-tok",
                     kaggleApiToken := some "kaggle-tok" }
    region := regionC8
    servicePassword := "pw"
    project := { id := "proj-1", group := some "team" }
    disablePersonalInfosInjectionInGroup := true
    lang := "en"
    customS3Configs :=
      { indexForXOnyxia := some 0
        availableConfigs :=
          [{ url := "https://minio.example.com", accessKeyId := "AKIA123"
             secretAccessKey := "sek", sessionToken := some "tok"
             region := "us-east-1", workingDirectoryPath := "bucket/obj"
             pathStyleAccess := true }] }
    secretsManagerToken := "vault-tok"
    s3TokenAccessKeyId := "stsAK"
    s3TokenSecretAccessKey := "stsSK"
    s3TokenSessionToken := some "stsST"
    homeDirectoryPath := "/home/jdoe"
    oneTimePassword := "otp"
    randomSubdomain := "123456" }

/-- C8 refuted: with the project in a group and personal-info injection in
groups disabled, but with a custom project S3 config designated for xOnyxia,
`AWS_ACCESS_KEY_ID` is the designated config's access key, not the empty
string. -/
theorem claim_C8_counterexample :
    inputsC8.project.group = some "team"
    ∧ inputsC8.disablePersonalInfosInjectionInGroup = true
    ∧ (getXOnyxiaContext envC8 inputsC8).map (fun c => c.s3.AWS_ACCESS_KEY_ID) =
        some "AKIA123"
    ∧ "AKIA123" ≠ "" := by
  decide

theorem computeVault_token_empty (i : Inputs) :
    (computeVault i false).VAULT_TOKEN = "" := by
  cases hv : i.region.vault <;> simp [computeVault, hv]

theorem computeS3_keys_eq (env : Env) (i j : Inputs)
    (hreg : i.region = j.region) (hcs3 : i.customS3Configs = j.customS3Configs) :
    (computeS3 env i false).map
        (fun s => (s.AWS_ACCESS_KEY_ID, s.AWS_SECRET_ACCESS_KEY, s.AWS_SESSION_TOKEN))
      = (computeS3 env j false).map
        (fun s => (s.AWS_ACCESS_KEY_ID, s.AWS_SECRET_ACCESS_KEY, s.AWS_SESSION_TOKEN)) := by
  unfold computeS3
  rw [← hreg, ← hcs3]
  cases hidx : i.customS3Configs.indexForXOnyxia with
  | some idx =>
    cases hds : i.customS3Configs.availableConfigs[idx]? <;> simp [hds]
  | none =>
    cases hsp : i.region.s3Params with
    | none => simp
    | some sp =>
      cases hsts : sp.sts with
      | none => simp [hsts]
      | some u => simp [hsts]

/-- C8 (amended): whenever the current project has a group and personal-info
injection in groups is disabled, `user.ip` is `0.0.0.0`, the `git` block has
empty name and email, zero cache duration and no token, `VAULT_TOKEN` is empty,
`kaggleApiToken` is undefined, and — when no custom project S3 config is
designated for xOnyxia — the three AWS credential fields are empty strings
(when one is designated, they take that project-level config's values);
moreover two runs that differ only in the personal inputs (public IP, user
identity, user configs, secrets-manager token, S3 token) produce identical
values for all these fields. -/
theorem claim_C8_amended (env : Env) (i j : Inputs)
    (hg : i.project.group ≠ none)
    (hd : i.disablePersonalInfosInjectionInGroup = true)
    (hpr : i.project = j.project)
    (hdd : i.disablePersonalInfosInjectionInGroup =
        j.disablePersonalInfosInjectionInGroup)
    (hreg : i.region = j.region)
    (hcs3 : i.customS3Configs = j.customS3Configs) :
    (∀ c, getXOnyxiaContext env i = some c →
      c.user.ip = "0.0.0.0"
      ∧ c.git = { name := "", email := "", credentialsCacheDuration := 0,
                  token := none }
      ∧ c.vault.VAULT_TOKEN = ""
      ∧ c.kaggleApiToken = none
      ∧ (i.customS3Configs.indexForXOnyxia = none →
          c.s3.AWS_ACCESS_KEY_ID = "" ∧ c.s3.AWS_SECRET_ACCESS_KEY = ""
          ∧ c.s3.AWS_SESSION_TOKEN = ""))
    ∧ (getXOnyxiaContext env i).map personalProj =
        (getXOnyxiaContext env j).map personalProj := by
  have hdi : (i.project.group.isNone || !i.disablePersonalInfosInjectionInGroup)
      = false := by
    cases hgc : i.project.group with
    | none => exact absurd hgc hg
    | some g => simp [hgc, hd]
  have hdj : (j.project.group.isNone || !j.disablePersonalInfosInjectionInGroup)
      = false := by
    rw [← hpr, ← hdd]
    exact hdi
  constructor
  · intro c hc
    simp only [getXOnyxiaContext, hdi] at hc
    cases hs3 : computeS3 env i false with
    | none => rw [hs3] at hc; exact absurd hc (by simp)
    | some s3 =>
      rw [hs3] at hc
      simp only [Option.some.injEq] at hc
      subst hc
      refine ⟨rfl, rfl, computeVault_token_empty i, rfl, ?_⟩
      intro hidx
      unfold computeS3 at hs3
      simp only [hidx] at hs3
      cases hsp : i.region.s3Params with
      | none =>
        simp only [hsp] at hs3
        have hrec := Option.some.inj hs3
        subst hrec
        exact ⟨rfl, rfl, rfl⟩
      | some sp =>
        simp only [hsp] at hs3
        cases hsts : sp.sts with
        | none =>
          simp only [hsts] at hs3
          have hrec := Option.some.inj hs3
          subst hrec
          exact ⟨rfl, rfl, rfl⟩
        | some u =>
          simp only [hsts] at hs3
          have hrec := Option.some.inj hs3
          subst hrec
          exact ⟨rfl, rfl, rfl⟩
  · have hk := computeS3_keys_eq env i j hreg hcs3
    simp only [getXOnyxiaContext, hdi, hdj]
    cases hsi : computeS3 env i false with
    | none =>
      cases hsj : computeS3 env j false with
      | none => rfl
      | some s3j => rw [hsi, hsj] at hk; simp at hk
    | some s3i =>
      cases hsj : computeS3 env j false with
      | none => rw [hsi, hsj] at hk; simp at hk
      | some s3j =>
        rw [hsi, hsj] at hk
        simp only [Option.map_some', Option.some.injEq, Prod.mk.injEq] at hk
        simp only [Option.map_some', Option.some.injEq]
        unfold personalProj
        simp only [Prod.mk.injEq]
        exact ⟨rfl, rfl,
          (computeVault_token_empty i).trans (computeVault_token_empty j).symm,
          rfl, hk.1, hk.2.1, hk.2.2⟩

end XOnyxia

namespace XOnyxia

/-- The inputs of `inputsC8` with no custom S3 config designated for xOnyxia. -/
def inputsC8r : Inputs :=
  { inputsC8 with customS3Configs := { indexForXOnyxia := none, availableConfigs := [] } }

/-- The same run with every personal input changed. -/
def inputsC8r2 : Inputs :=
  { inputsC8r with
    publicIp := "198.51.100.9"
    user := { username := "asmith", familyName := "Smith", firstName := "Al",
              email := "as@example.com" }
    userConfigs := { isDarkModeEnabled := false, gitName := "Al Smith",
                     gitEmail := "as@example.com", gitCredentialCacheDuration := 60,
                     githubPersonalAccessToken := none, kaggleApiToken := none }
    secretsManagerToken := "other-vault-tok"
    s3TokenAccessKeyId := "AK2"
    s3TokenSecretAccessKey := "SK2"
    s3TokenSessionToken := none }

theorem claim_C8_amended_witness :
    (getXOnyxiaContext envC8 inputsC8r).map (fun c => c.user.ip) = some "0.0.0.0"
    ∧ (getXOnyxiaContext envC8 inputsC8r).map (fun c => c.s3.AWS_ACCESS_KEY_ID) =
        some ""
    ∧ (getXOnyxiaContext envC8 inputsC8r).map personalProj =
        (getXOnyxiaContext envC8 inputsC8r2).map personalProj := by
  have h := claim_C8_amended envC8 inputsC8r inputsC8r2 (by decide) rfl rfl rfl rfl rfl
  refine ⟨?_, ?_, h.2⟩
  · cases hc : getXOnyxiaContext envC8 inputsC8r with
    | none =>
      have hsome : (getXOnyxiaContext envC8 inputsC8r).isSome = true := by decide
      rw [hc] at hsome
      simp at hsome
    | some c =>
      have h1 := h.1 c hc
      simp [h1.1]
  · cases hc : getXOnyxiaContext envC8 inputsC8r with
    | none =>
      have hsome : (getXOnyxiaContext envC8 inputsC8r).isSome = true := by decide
      rw [hc] at hsome
      simp at hsome
    | some c =>
      have h1 := h.1 c hc
      simp [(h1.2.2.2.2 rfl).1]

end XOnyxia
